import Mathlib

/-!
Verification of the cheapRuler library (a Go port of cheap-ruler).

The library is embedded shallowly: `Point`/`Bbox` become tuples over a scalar
type, the `Ruler` struct becomes a two-field structure, and each method becomes
a Lean function translated from the Go source.  Operations that use only field
arithmetic and comparisons (`PointOnLine`, `LineSlice`, the buffer and bbox
operations, `interpolate`) are defined over an arbitrary linear ordered field,
so they are executable at `ℚ`; operations that use `math.Sqrt`, `math.Atan2` or
`math.Cos` (`Distance`, `LineDistance`, `Along`, `LineSliceAlong`, `Bearing`,
`NewRuler`) are defined over `ℝ`, reading the floating-point source at its
ideal real-number semantics.

The exported API lives in cheapRuler/cheapRuler.go of the repository (file
`part_001` here); the second copy of the package (the rough draft) differs in
`lineSliceAlong`, which is embedded separately as `Ruler.lineSliceAlong` for
the refinement comparison.
-/

section Defs

variable {K : Type} [LinearOrderedField K]

/-- Point is a [longitude, latitude] array. -/
abbrev Pt (K : Type) := K × K

/-- Bbox is a [southwestLon, southwestLat, northeastLon, northeastLat] array,
modelled as a nested pair: fields are `.1`, `.2.1`, `.2.2.1`, `.2.2.2`. -/
abbrev Bbox (K : Type) := K × K × K × K

/-- Ruler is the type of objects returned when using NewRuler. -/
structure Ruler (K : Type) where
  kx : K
  ky : K
deriving DecidableEq

/-- PointOnLine is the struct returned by the ruler.PointOnLine method. -/
structure PointOnLine (K : Type) where
  point : Pt K
  index : ℕ
  t : K
deriving DecidableEq

/-- interpolate returns a point located at the given proportion t between the
points a and b: `Point{a[0] + dx*t, a[1] + dy*t}` with `dx := b[0]-a[0]`,
`dy := b[1]-a[1]`. -/
def interpolate (a b : Pt K) (t : K) : Pt K :=
  (a.1 + (b.1 - a.1) * t, a.2 + (b.2 - a.2) * t)

/-- The raw segment parameter `t` computed by one iteration of the PointOnLine
loop for the segment from `a` to `b`.  In the Go source `t` is a variable that
lives across loop iterations: when the segment is degenerate in projected space
(`dx == 0 && dy == 0`) the body leaves `t` unchanged, so the previous value
`tPrev` persists. -/
def segT (r : Ruler K) (p a b : Pt K) (tPrev : K) : K :=
  let dx := (b.1 - a.1) * r.kx
  let dy := (b.2 - a.2) * r.ky
  if dx ≠ 0 ∨ dy ≠ 0 then
    ((p.1 - a.1) * r.kx * dx + (p.2 - a.2) * r.ky * dy) / (dx * dx + dy * dy)
  else tPrev

/-- The candidate snap point computed by one iteration of the PointOnLine loop
for the segment from `a` to `b`: the projection of `p` clamped to the segment,
or the segment start for a degenerate segment.  (The candidate never depends on
the stale `t` value: in the degenerate branch `x, y` keep the values `l[i]`.) -/
def segCand (r : Ruler K) (p a b : Pt K) : Pt K :=
  let dx := (b.1 - a.1) * r.kx
  let dy := (b.2 - a.2) * r.ky
  if dx ≠ 0 ∨ dy ≠ 0 then
    let t := ((p.1 - a.1) * r.kx * dx + (p.2 - a.2) * r.ky * dy) / (dx * dx + dy * dy)
    if t > 1 then b
    else if t > 0 then (a.1 + (dx / r.kx) * t, a.2 + (dy / r.ky) * t)
    else a
  else a

/-- The squared projected distance from `p` to the candidate snap point of the
segment from `a` to `b`, as computed at the end of one PointOnLine iteration:
`dx = (p[0]-x)*kx; dy = (p[1]-y)*ky; sqDist = dx*dx + dy*dy`. -/
def segSqDist (r : Ruler K) (p a b : Pt K) : K :=
  let q := segCand r p a b
  ((p.1 - q.1) * r.kx) * ((p.1 - q.1) * r.kx) +
    ((p.2 - q.2) * r.ky) * ((p.2 - q.2) * r.ky)

/-- The list of per-segment candidate squared distances of a line, scanned left
to right. -/
def sqList (r : Ruler K) (p : Pt K) : List (Pt K) → List K
  | a :: b :: rest => segSqDist r p a b :: sqList r p (b :: rest)
  | _ => []

/-- The list of per-segment candidate snap points of a line, scanned left to
right. -/
def candList (r : Ruler K) (p : Pt K) : List (Pt K) → List (Pt K)
  | a :: b :: rest => segCand r p a b :: candList r p (b :: rest)
  | _ => []

/-- Loop state of the PointOnLine scan.  `minDist = none` models the initial
`math.Inf(1)`; `t` is the raw parameter variable that persists across
iterations (it is only overwritten on non-degenerate segments). -/
structure POLAcc (K : Type) where
  minDist : Option K
  minX : K
  minY : K
  minI : ℕ
  minT : K
  t : K
deriving DecidableEq

/-- Comparison `sqDist < minDist` where `minDist` may still be `+Inf`. -/
def ltOpt (x : K) : Option K → Bool
  | none => true
  | some m => decide (x < m)

/-- The PointOnLine scan: one iteration per segment, keeping the first
candidate whose squared distance is strictly below the current minimum. -/
def Ruler.polGo (r : Ruler K) (p : Pt K) : List (Pt K) → ℕ → POLAcc K → POLAcc K
  | a :: b :: rest, i, s =>
    let t' := segT r p a b s.t
    let q := segCand r p a b
    let sq := segSqDist r p a b
    let s' : POLAcc K :=
      if ltOpt sq s.minDist then ⟨some sq, q.1, q.2, i, t', t'⟩
      else ⟨s.minDist, s.minX, s.minY, s.minI, s.minT, t'⟩
    r.polGo p (b :: rest) (i + 1) s'
  | _, _, s => s

/-- PointOnLine snaps the given point on the line, returning the snap point,
the index of its segment, and the clamped parameter
`math.Max(0, math.Min(1, minT))`. -/
def Ruler.PointOnLine (r : Ruler K) (l : List (Pt K)) (p : Pt K) : PointOnLine K :=
  let s := r.polGo p l 0 ⟨none, 0, 0, 0, 0, 0⟩
  ⟨(s.minX, s.minY), s.minI, max 0 (min 1 s.minT)⟩

/-- LineSlice returns the portion of the given line that lies between provided
start and end points (the points being snapped on the line).  Translated
branch for branch from the source, including the swap condition
`p1.index > p2.index || (p1.index == p2.index && p1.t < p2.t)`. -/
def Ruler.LineSlice (r : Ruler K) (start endP : Pt K) (l : List (Pt K)) : List (Pt K) :=
  let p1 := r.PointOnLine l start
  let p2 := r.PointOnLine l endP
  let q := if p1.index > p2.index ∨ (p1.index = p2.index ∧ p1.t < p2.t)
    then (p2, p1) else (p1, p2)
  let q1 := q.1
  let q2 := q.2
  let slice0 : List (Pt K) := [q1.point]
  let left := q1.index + 1
  let right := q2.index
  let slice1 := if l.getD left (0, 0) ≠ q1.point ∧ left ≤ right
    then slice0 ++ [l.getD left (0, 0)] else slice0
  let slice2 := slice1 ++ (List.range' (left + 1) (right - left)).map (fun i => l.getD i (0, 0))
  if l.getD right (0, 0) ≠ q2.point then slice2 ++ [q2.point] else slice2

/-- BufferPoint returns a Bbox that contains the given point with a buffer
margin given in ruler units.  The source computes `v := buffer / r.kx;
h := buffer / r.ky` and returns `{p[0]-h, p[1]-v, p[0]+h, p[1]+v}`. -/
def Ruler.BufferPoint (r : Ruler K) (p : Pt K) (buffer : K) : Bbox K :=
  let v := buffer / r.kx
  let h := buffer / r.ky
  (p.1 - h, p.2 - v, p.1 + h, p.2 + v)

/-- BufferBbox returns a Bbox that contains the given bbox with a buffer margin
given in ruler units. -/
def Ruler.BufferBbox (r : Ruler K) (b : Bbox K) (buffer : K) : Bbox K :=
  let v := buffer / r.kx
  let h := buffer / r.ky
  (b.1 - h, b.2.1 - v, b.2.2.1 + h, b.2.2.2 + v)

/-- InsideBbox returns whether the given point is inside the given bbox
(inclusive on all four edges). -/
def Ruler.InsideBbox (_ : Ruler K) (p : Pt K) (b : Bbox K) : Bool :=
  decide (p.1 ≥ b.1) && decide (p.1 ≤ b.2.2.1) &&
    decide (p.2 ≥ b.2.1) && decide (p.2 ≤ b.2.2.2)

end Defs

section RealDefs

/-- Units provides convenience conversions from kilometers to different
distance units. -/
noncomputable def cheapRuler.Units : List (String × ℝ) :=
  [("kilometers", 1),
   ("miles", 1000 / 1609.344),
   ("nauticalmiles", 1000 / 1852),
   ("meters", 1000),
   ("metres", 1000),
   ("yards", 1000 / 0.9144),
   ("feet", 1000 / 0.3048),
   ("inches", 1000 / 0.0254)]

/-- NewRuler instantiates a new ruler from a latitude and a unit.  The Go
function returns `(Ruler, error)`; the error is modelled as `Option String`
(`none` for `nil`).  An unknown unit falls back to the kilometers scale 1 and
produces a non-nil error. -/
noncomputable def NewRuler (lat : ℝ) (unit : String) : Ruler ℝ × Option String :=
  let me : ℝ × Option String :=
    match cheapRuler.Units.lookup unit with
    | some scale => (scale, none)
    | none => (1, some (unit ++ " is not a valid unit"))
  let m := me.1
  let c := Real.cos (lat * Real.pi / 180)
  let cos2 := 2 * c * c - 1
  let cos3 := 2 * c * cos2 - c
  let cos4 := 2 * c * cos3 - cos2
  let cos5 := 2 * c * cos4 - cos3
  (⟨m * (111.41513 * c - 0.09455 * cos3 + 0.00012 * cos5),
    m * (111.13209 - 0.56605 * cos2 + 0.0012 * cos4)⟩,
   me.2)

/-- Distance gives the distance in ruler units between two points:
`sqrt(dx*dx + dy*dy)` with `dx := (a[0]-b[0])*kx`, `dy := (a[1]-b[1])*ky`. -/
noncomputable def Ruler.Distance (r : Ruler ℝ) (a b : Pt ℝ) : ℝ :=
  let dx := (a.1 - b.1) * r.kx
  let dy := (a.2 - b.2) * r.ky
  Real.sqrt (dx * dx + dy * dy)

/-- atan2 with the argument convention of the Go standard library:
`atan2 y x` is the angle of the point `(x, y)`, realized as the complex
argument of `x + y*i`, valued in `(-π, π]`. -/
noncomputable def atan2 (y x : ℝ) : ℝ :=
  Complex.arg ⟨x, y⟩

/-- Bearing gives the bearing in degrees from north between two points, per the
exported source: `dx := (b[0]-a[0])*kx; dy := (b[1]-a[1])*ky`; 0 when both
vanish; otherwise `atan2(dx, dy)*180/π`, wrapped by `-360` if above 180. -/
noncomputable def Ruler.Bearing (r : Ruler ℝ) (a b : Pt ℝ) : ℝ :=
  let dx := (b.1 - a.1) * r.kx
  let dy := (b.2 - a.2) * r.ky
  if dx = 0 ∧ dy = 0 then 0
  else
    let bearing := atan2 dx dy * 180 / Real.pi
    if bearing > 180 then bearing - 360 else bearing

/-- LineDistance returns the total distance of a linestring, in ruler units:
the sum of `Distance` over consecutive point pairs. -/
noncomputable def Ruler.LineDistance (r : Ruler ℝ) : List (Pt ℝ) → ℝ
  | a :: b :: rest => r.Distance a b + r.LineDistance (b :: rest)
  | _ => 0

/-- The Along loop: walks the remaining points carrying the accumulated sum;
returns the interpolated point on the first segment whose cumulative sum
exceeds `dist`, and the last point when the scan ends.  An empty list (where
the Go code would index out of bounds) yields `none`. -/
noncomputable def Ruler.alongGo (r : Ruler ℝ) (dist : ℝ) : List (Pt ℝ) → ℝ → Option (Pt ℝ)
  | p0 :: p1 :: rest, sum =>
    let d := r.Distance p0 p1
    let sum' := sum + d
    if sum' > dist then some (interpolate p0 p1 ((dist - (sum' - d)) / d))
    else r.alongGo dist (p1 :: rest) sum'
  | [p], _ => some p
  | [], _ => none

/-- Along returns the point located at the given distance along the given
line, in ruler units: `l[0]` for `dist <= 0`, otherwise the scan. -/
noncomputable def Ruler.Along (r : Ruler ℝ) (l : List (Pt ℝ)) (dist : ℝ) : Option (Pt ℝ) :=
  if dist ≤ 0 then l.head? else r.alongGo dist l 0

/-- The LineSliceAlong loop of the exported source, carrying the running sum
and the slice accumulated so far.  On the segment where the running sum first
reaches `stop` it appends the interpolated stop point and returns. -/
noncomputable def Ruler.lineSliceAlongGo (r : Ruler ℝ) (start stop : ℝ) :
    List (Pt ℝ) → ℝ → List (Pt ℝ) → List (Pt ℝ)
  | p0 :: p1 :: rest, sum, slice =>
    let d := r.Distance p0 p1
    let sum' := sum + d
    let slice1 := if sum' > start ∧ slice = []
      then slice ++ [interpolate p0 p1 ((start - (sum' - d)) / d)] else slice
    if sum' ≥ stop then slice1 ++ [interpolate p0 p1 ((stop - (sum' - d)) / d)]
    else r.lineSliceAlongGo start stop (p1 :: rest) sum'
      (if sum' > start then slice1 ++ [p1] else slice1)
  | _, _, slice => slice

/-- LineSliceAlong returns the portion of the given line that lies between
provided start and stop distances, in ruler units (exported version, which
returns as soon as the running sum reaches `stop`). -/
noncomputable def Ruler.LineSliceAlong (r : Ruler ℝ) (start stop : ℝ) (l : List (Pt ℝ)) :
    List (Pt ℝ) :=
  r.lineSliceAlongGo start stop l 0 []

/-- The loop of the rough-draft `lineSliceAlong` (second copy of the package):
identical to the exported loop except that reaching `stop` appends the
interpolated stop point without returning, so the scan keeps accumulating. -/
noncomputable def Ruler.lineSliceAlongDraftGo (r : Ruler ℝ) (start stop : ℝ) :
    List (Pt ℝ) → ℝ → List (Pt ℝ) → List (Pt ℝ)
  | p0 :: p1 :: rest, sum, slice =>
    let d := r.Distance p0 p1
    let sum' := sum + d
    let slice1 := if sum' > start ∧ slice = []
      then slice ++ [interpolate p0 p1 ((start - (sum' - d)) / d)] else slice
    let slice2 := if sum' ≥ stop
      then slice1 ++ [interpolate p0 p1 ((stop - (sum' - d)) / d)] else slice1
    let slice3 := if sum' > start then slice2 ++ [p1] else slice2
    r.lineSliceAlongDraftGo start stop (p1 :: rest) sum' slice3
  | _, _, slice => slice

/-- The rough-draft `lineSliceAlong` of cheapRuler.go: same loop body as the
exported LineSliceAlong but with no early return at `stop`. -/
noncomputable def Ruler.lineSliceAlong (r : Ruler ℝ) (start stop : ℝ) (l : List (Pt ℝ)) :
    List (Pt ℝ) :=
  r.lineSliceAlongDraftGo start stop l 0 []

end RealDefs

section BufferTheorems

/-- C2: the claim predicts `bufferPoint(p, buffer) = [p.lon - buffer/kx,
p.lat - buffer/ky, p.lon + buffer/kx, p.lat + buffer/ky]`.  Evaluating the code
at kx = 2, ky = 1, p = (0,0), buffer = 1 shows the axes are swapped: the west
edge moves by `buffer/ky` (giving -1), not by `buffer/kx` (which would give
-1/2), and likewise for `bufferBbox`. -/
theorem bufferPoint_axis_swap_eval :
    (Ruler.BufferPoint (⟨2, 1⟩ : Ruler ℚ) (0, 0) 1 = (-1, -(1/2), 1, 1/2) ∧
      Ruler.BufferPoint (⟨2, 1⟩ : Ruler ℚ) (0, 0) 1 ≠ (-(1/2), -1, 1/2, 1)) ∧
    (Ruler.BufferBbox (⟨2, 1⟩ : Ruler ℚ) (0, 0, 0, 0) 1 = (-1, -(1/2), 1, 1/2) ∧
      Ruler.BufferBbox (⟨2, 1⟩ : Ruler ℚ) (0, 0, 0, 0) 1 ≠ (-(1/2), -1, 1/2, 1)) := by
  refine ⟨⟨?_, ?_⟩, ?_, ?_⟩ <;> norm_num [Ruler.BufferPoint, Ruler.BufferBbox, Prod.ext_iff]

/-- C10: a point is always contained in its own buffered bounding box when both
scale factors are positive and the buffer is nonnegative. -/
theorem bufferPoint_inside {K : Type} [LinearOrderedField K] (r : Ruler K) (p : Pt K)
    (buffer : K) (hx : 0 < r.kx) (hy : 0 < r.ky) (hb : 0 ≤ buffer) :
    r.InsideBbox p (r.BufferPoint p buffer) = true := by
  have h1 : 0 ≤ buffer / r.kx := div_nonneg hb hx.le
  have h2 : 0 ≤ buffer / r.ky := div_nonneg hb hy.le
  simp only [Ruler.InsideBbox, Ruler.BufferPoint, Bool.and_eq_true, decide_eq_true_eq,
    ge_iff_le]
  refine ⟨⟨⟨?_, ?_⟩, ?_⟩, ?_⟩ <;> linarith

/-- Witness for C10 at a concrete ruler, point and buffer. -/
theorem bufferPoint_inside_witness :
    (0:ℚ) < 1 ∧ (0:ℚ) < 1 ∧ (0:ℚ) ≤ 2 ∧
      Ruler.InsideBbox (⟨1, 1⟩ : Ruler ℚ) (3, 4) (Ruler.BufferPoint ⟨1, 1⟩ (3, 4) 2) = true :=
  ⟨by norm_num, by norm_num, by norm_num,
    bufferPoint_inside (⟨1, 1⟩ : Ruler ℚ) (3, 4) 2 (by norm_num) (by norm_num) (by norm_num)⟩

end BufferTheorems

section LineSliceTheorems

/-- C1: evaluating LineSlice at kx = ky = 1 on the single-segment line
[(0,0),(10,0)] with start = (2,5) and end = (7,5): both query points snap to
segment 0, the snapped start (t = 1/5, point (2,0)) lies strictly before the
snapped end (t = 7/10, point (7,0)), yet the swap condition `p1.t < p2.t`
fires and the returned slice is [(7,0),(2,0)] — it begins with the later snap
point, not the earlier one. -/
theorem lineSlice_tied_segment_swap_eval :
    (Ruler.PointOnLine (⟨1, 1⟩ : Ruler ℚ) [(0, 0), (10, 0)] (2, 5)).index =
        (Ruler.PointOnLine (⟨1, 1⟩ : Ruler ℚ) [(0, 0), (10, 0)] (7, 5)).index ∧
      (Ruler.PointOnLine (⟨1, 1⟩ : Ruler ℚ) [(0, 0), (10, 0)] (2, 5)).t <
        (Ruler.PointOnLine (⟨1, 1⟩ : Ruler ℚ) [(0, 0), (10, 0)] (7, 5)).t ∧
      Ruler.LineSlice (⟨1, 1⟩ : Ruler ℚ) (2, 5) (7, 5) [(0, 0), (10, 0)] =
        [(7, 0), (2, 0)] ∧
      (Ruler.LineSlice (⟨1, 1⟩ : Ruler ℚ) (2, 5) (7, 5) [(0, 0), (10, 0)]).head? ≠
        some (Ruler.PointOnLine (⟨1, 1⟩ : Ruler ℚ) [(0, 0), (10, 0)] (2, 5)).point := by
  have h1 : Ruler.PointOnLine (⟨1, 1⟩ : Ruler ℚ) [(0, 0), (10, 0)] (2, 5) =
      ⟨(2, 0), 0, 1/5⟩ := by
    norm_num [Ruler.PointOnLine, Ruler.polGo, segT, segCand, segSqDist, ltOpt]
  have h2 : Ruler.PointOnLine (⟨1, 1⟩ : Ruler ℚ) [(0, 0), (10, 0)] (7, 5) =
      ⟨(7, 0), 0, 7/10⟩ := by
    norm_num [Ruler.PointOnLine, Ruler.polGo, segT, segCand, segSqDist, ltOpt]
  refine ⟨by rw [h1, h2], by rw [h1, h2]; norm_num, ?_, ?_⟩ <;>
    simp only [Ruler.LineSlice, h1, h2] <;> norm_num [List.range', Prod.ext_iff]

end LineSliceTheorems

section RulerConstructionTheorems

/-- C6: NewRuler returns a non-nil error exactly when the unit is not a key of
the Units table, and in that case the returned Ruler is the one obtained with
the "kilometers" unit (scale factor 1). -/
theorem newRuler_invalid_unit (lat : ℝ) (unit : String) :
    ((NewRuler lat unit).2 ≠ none ↔ cheapRuler.Units.lookup unit = none) ∧
      ((NewRuler lat unit).2 ≠ none →
        (NewRuler lat unit).1 = (NewRuler lat "kilometers").1) := by
  have hk : cheapRuler.Units.lookup "kilometers" = some 1 := rfl
  unfold NewRuler
  cases h : cheapRuler.Units.lookup unit with
  | none => simp [h, hk]
  | some s => simp [h]

/-- Witness for C6 at latitude 42 and the unrecognized unit "furlongs". -/
theorem newRuler_invalid_unit_witness :
    ((NewRuler 42 "furlongs").2 ≠ none ↔ cheapRuler.Units.lookup "furlongs" = none) ∧
      ((NewRuler 42 "furlongs").2 ≠ none →
        (NewRuler 42 "furlongs").1 = (NewRuler 42 "kilometers").1) ∧
      (NewRuler 42 "furlongs").2 ≠ none :=
  ⟨(newRuler_invalid_unit 42 "furlongs").1,
   (newRuler_invalid_unit 42 "furlongs").2,
   (newRuler_invalid_unit 42 "furlongs").1.mpr rfl⟩

end RulerConstructionTheorems

section BearingTheorems

/-- C3: with dx = (b.lon - a.lon)*kx and dy = (b.lat - a.lat)*ky, Bearing
returns 0 when dx = 0 and dy = 0, and otherwise returns atan2(dx, dy)*180/π
(the wrap branch `bearing -= 360` never fires), a value in (-180, 180]. -/
theorem bearing_spec (r : Ruler ℝ) (a b : Pt ℝ) :
    (((b.1 - a.1) * r.kx = 0 ∧ (b.2 - a.2) * r.ky = 0) → r.Bearing a b = 0) ∧
      (¬((b.1 - a.1) * r.kx = 0 ∧ (b.2 - a.2) * r.ky = 0) →
        r.Bearing a b = atan2 ((b.1 - a.1) * r.kx) ((b.2 - a.2) * r.ky) * 180 / Real.pi ∧
          r.Bearing a b ∈ Set.Ioc (-180 : ℝ) 180) := by
  have hpi : (0 : ℝ) < Real.pi := Real.pi_pos
  constructor
  · intro h
    simp [Ruler.Bearing, h.1, h.2]
  · intro h
    have harg1 : atan2 ((b.1 - a.1) * r.kx) ((b.2 - a.2) * r.ky) ≤ Real.pi :=
      Complex.arg_le_pi _
    have harg2 : -Real.pi < atan2 ((b.1 - a.1) * r.kx) ((b.2 - a.2) * r.ky) :=
      Complex.neg_pi_lt_arg _
    have hle : atan2 ((b.1 - a.1) * r.kx) ((b.2 - a.2) * r.ky) * 180 / Real.pi ≤ 180 := by
      rw [div_le_iff₀ hpi]
      nlinarith
    have hgt : -180 < atan2 ((b.1 - a.1) * r.kx) ((b.2 - a.2) * r.ky) * 180 / Real.pi := by
      rw [lt_div_iff₀ hpi]
      nlinarith
    simp only [Ruler.Bearing, if_neg h]
    rw [if_neg (by linarith : ¬(atan2 ((b.1 - a.1) * r.kx) ((b.2 - a.2) * r.ky) * 180 /
      Real.pi > 180))]
    exact ⟨rfl, hgt, hle⟩

/-- Witness for C3 on the non-degenerate branch at kx = ky = 1, a = (0,0),
b = (1,0). -/
theorem bearing_spec_witness :
    ¬(((1 : ℝ) - 0) * 1 = 0 ∧ ((0 : ℝ) - 0) * 1 = 0) ∧
      (Ruler.Bearing (⟨1, 1⟩ : Ruler ℝ) (0, 0) (1, 0) =
          atan2 (((1 : ℝ) - 0) * 1) (((0 : ℝ) - 0) * 1) * 180 / Real.pi ∧
        Ruler.Bearing (⟨1, 1⟩ : Ruler ℝ) (0, 0) (1, 0) ∈ Set.Ioc (-180 : ℝ) 180) :=
  ⟨by norm_num, (bearing_spec ⟨1, 1⟩ (0, 0) (1, 0)).2 (by norm_num)⟩

end BearingTheorems

section DistanceLemmas

theorem Ruler.dist_eval (r : Ruler ℝ) (a b : Pt ℝ) :
    r.Distance a b = Real.sqrt (((a.1 - b.1) * r.kx) * ((a.1 - b.1) * r.kx) +
      ((a.2 - b.2) * r.ky) * ((a.2 - b.2) * r.ky)) := rfl

theorem Ruler.Distance_nonneg (r : Ruler ℝ) (a b : Pt ℝ) : 0 ≤ r.Distance a b :=
  Real.sqrt_nonneg _

theorem Ruler.lineDist_cons_cons (r : Ruler ℝ) (a b : Pt ℝ) (rest : List (Pt ℝ)) :
    r.LineDistance (a :: b :: rest) = r.Distance a b + r.LineDistance (b :: rest) := rfl

theorem Ruler.lineDist_single (r : Ruler ℝ) (a : Pt ℝ) : r.LineDistance [a] = 0 := rfl

theorem Ruler.lineDist_nil (r : Ruler ℝ) : r.LineDistance [] = 0 := rfl

theorem Ruler.LineDistance_nonneg (r : Ruler ℝ) (l : List (Pt ℝ)) :
    0 ≤ r.LineDistance l := by
  induction l with
  | nil => simp [Ruler.LineDistance]
  | cons a rest ih =>
      cases rest with
      | nil => simp [Ruler.LineDistance]
      | cons b rest' =>
          rw [r.lineDist_cons_cons]
          exact add_nonneg (r.Distance_nonneg a b) ih

theorem dist_three_four : Ruler.Distance (⟨1, 1⟩ : Ruler ℝ) (0, 0) (3, 4) = 5 := by
  rw [Ruler.dist_eval]
  have h : (((0:ℝ), (0:ℝ)).1 - ((3:ℝ), (4:ℝ)).1) * (1:ℝ) *
        ((((0:ℝ), (0:ℝ)).1 - ((3:ℝ), (4:ℝ)).1) * 1) +
      (((0:ℝ), (0:ℝ)).2 - ((3:ℝ), (4:ℝ)).2) * 1 *
        ((((0:ℝ), (0:ℝ)).2 - ((3:ℝ), (4:ℝ)).2) * 1) = 5 ^ 2 := by norm_num
  rw [h, Real.sqrt_sq]
  norm_num

theorem lineDist_three_four :
    Ruler.LineDistance (⟨1, 1⟩ : Ruler ℝ) [(0, 0), (3, 4)] = 5 := by
  rw [Ruler.lineDist_cons_cons, Ruler.lineDist_single, dist_three_four, add_zero]

end DistanceLemmas

section AlongTheorems

/-- The Along scan returns the last point of a non-empty line whenever the
running sum can never exceed `dist`. -/
theorem Ruler.alongGo_getLast (r : Ruler ℝ) (dist : ℝ) :
    ∀ (l : List (Pt ℝ)) (sum : ℝ), l ≠ [] → sum + r.LineDistance l ≤ dist →
      r.alongGo dist l sum = l.getLast? := by
  intro l
  induction l with
  | nil => intro sum h _; exact absurd rfl h
  | cons p0 rest ih =>
      intro sum _ htot
      cases rest with
      | nil => rfl
      | cons p1 rest' =>
          rw [Ruler.alongGo]
          have hd : 0 ≤ r.LineDistance (p1 :: rest') := r.LineDistance_nonneg _
          have hle : sum + r.Distance p0 p1 ≤ dist := by
            rw [r.lineDist_cons_cons] at htot
            linarith
          rw [if_neg (by linarith : ¬(sum + r.Distance p0 p1 > dist))]
          rw [ih (sum + r.Distance p0 p1) (by simp)
            (by rw [r.lineDist_cons_cons] at htot; linarith)]
          exact List.getLast?_cons_cons.symm

/-- C7 counterexample: at the degenerate ruler kx = 0, ky = 1 (the projected
scale of NewRuler at the pole under exact arithmetic) the line [(0,0),(1,0)]
has lineDistance 0, so dist = 0 satisfies dist >= lineDistance, yet Along
takes the `dist <= 0` branch and returns the FIRST point (0,0), not the last
point (1,0). -/
theorem along_at_total_counterexample :
    Ruler.LineDistance (⟨0, 1⟩ : Ruler ℝ) [(0, 0), (1, 0)] ≤ (0 : ℝ) ∧
      ([((0:ℝ), (0:ℝ)), (1, 0)] : List (Pt ℝ)) ≠ [] ∧
      Ruler.Along (⟨0, 1⟩ : Ruler ℝ) [(0, 0), (1, 0)] 0 = some (0, 0) ∧
      ([((0:ℝ), (0:ℝ)), (1, 0)] : List (Pt ℝ)).getLast? = some (1, 0) ∧
      ((0, 0) : Pt ℝ) ≠ (1, 0) := by
  have hld : Ruler.LineDistance (⟨0, 1⟩ : Ruler ℝ) [(0, 0), (1, 0)] = 0 := by
    rw [Ruler.lineDist_cons_cons, Ruler.lineDist_single, Ruler.dist_eval]
    norm_num
  refine ⟨le_of_eq hld, by simp, ?_, by simp, by simp [Prod.ext_iff]⟩
  rw [Ruler.Along, if_pos le_rfl]
  rfl

/-- C7 amended: Along returns the first point for dist <= 0; it returns the
last point for every dist >= lineDistance provided dist > 0 (the boundary case
dist = 0 = lineDistance falls to the first branch, which can differ from the
last point only on a line whose projected length is 0 with distinct
endpoints); and for a one-point line Along always returns its single point. -/
theorem along_first_last (r : Ruler ℝ) (l : List (Pt ℝ)) (dist : ℝ) (hne : l ≠ []) :
    (dist ≤ 0 → r.Along l dist = l.head?) ∧
      (0 < dist → r.LineDistance l ≤ dist → r.Along l dist = l.getLast?) ∧
      (∀ p : Pt ℝ, ∀ d : ℝ, r.Along [p] d = some p) := by
  refine ⟨fun h => by rw [Ruler.Along, if_pos h], fun h0 htot => ?_, fun p d => ?_⟩
  · rw [Ruler.Along, if_neg (by linarith : ¬(dist ≤ 0))]
    exact r.alongGo_getLast dist l 0 hne (by linarith)
  · rw [Ruler.Along]
    split
    · rfl
    · rfl

/-- Witness for C7's amended statement at kx = ky = 1 on the line
[(0,0),(3,4)] (projected length 5), with dist = -1 for the first branch and
dist = 6 for the second. -/
theorem along_first_last_witness :
    ([((0:ℝ), (0:ℝ)), (3, 4)] : List (Pt ℝ)) ≠ [] ∧
      ((-1 : ℝ) ≤ 0 ∧ Ruler.Along (⟨1, 1⟩ : Ruler ℝ) [(0, 0), (3, 4)] (-1) =
        ([((0:ℝ), (0:ℝ)), (3, 4)] : List (Pt ℝ)).head?) ∧
      ((0 : ℝ) < 6 ∧ Ruler.LineDistance (⟨1, 1⟩ : Ruler ℝ) [(0, 0), (3, 4)] ≤ 6 ∧
        Ruler.Along (⟨1, 1⟩ : Ruler ℝ) [(0, 0), (3, 4)] 6 =
          ([((0:ℝ), (0:ℝ)), (3, 4)] : List (Pt ℝ)).getLast?) := by
  have hld : Ruler.LineDistance (⟨1, 1⟩ : Ruler ℝ) [(0, 0), (3, 4)] ≤ 6 := by
    rw [lineDist_three_four]; norm_num
  refine ⟨by simp, ⟨by norm_num, ?_⟩, by norm_num, hld, ?_⟩
  · exact (along_first_last (⟨1, 1⟩ : Ruler ℝ) [(0, 0), (3, 4)] (-1) (by simp)).1
      (by norm_num)
  · exact (along_first_last (⟨1, 1⟩ : Ruler ℝ) [(0, 0), (3, 4)] 6 (by simp)).2.1
      (by norm_num) hld

end AlongTheorems

section LineSliceAlongLemmas

theorem interpolate_zero {K : Type} [LinearOrderedField K] (a b : Pt K) :
    interpolate a b 0 = a :=
  Prod.ext_iff.mpr ⟨by simp [interpolate], by simp [interpolate]⟩

theorem interpolate_one {K : Type} [LinearOrderedField K] (a b : Pt K) :
    interpolate a b 1 = b :=
  Prod.ext_iff.mpr ⟨by simp [interpolate], by simp [interpolate]⟩

theorem Ruler.lineDist_pos (r : Ruler ℝ) :
    ∀ (l : List (Pt ℝ)), 2 ≤ l.length →
      List.Chain' (fun a b => 0 < r.Distance a b) l → 0 < r.LineDistance l
  | a :: b :: rest, _, hc => by
      rw [r.lineDist_cons_cons]
      have h1 : 0 < r.Distance a b := (List.chain'_cons.mp hc).1
      have h2 : 0 ≤ r.LineDistance (b :: rest) := r.LineDistance_nonneg _
      linarith

/-- One unfolded step of the exported LineSliceAlong loop on a two-point head,
with the let bindings of the body expanded. -/
theorem Ruler.lsaGo_step (r : Ruler ℝ) (start stop : ℝ) (p0 p1 : Pt ℝ) (rest : List (Pt ℝ))
    (sum : ℝ) (slice : List (Pt ℝ)) :
    r.lineSliceAlongGo start stop (p0 :: p1 :: rest) sum slice =
      (if sum + r.Distance p0 p1 ≥ stop then
        (if sum + r.Distance p0 p1 > start ∧ slice = []
          then slice ++ [interpolate p0 p1
            ((start - (sum + r.Distance p0 p1 - r.Distance p0 p1)) / r.Distance p0 p1)]
          else slice)
        ++ [interpolate p0 p1
            ((stop - (sum + r.Distance p0 p1 - r.Distance p0 p1)) / r.Distance p0 p1)]
      else
        r.lineSliceAlongGo start stop (p1 :: rest) (sum + r.Distance p0 p1)
          (if sum + r.Distance p0 p1 > start then
            (if sum + r.Distance p0 p1 > start ∧ slice = []
              then slice ++ [interpolate p0 p1
                ((start - (sum + r.Distance p0 p1 - r.Distance p0 p1)) / r.Distance p0 p1)]
              else slice)
            ++ [p1]
          else (if sum + r.Distance p0 p1 > start ∧ slice = []
              then slice ++ [interpolate p0 p1
                ((start - (sum + r.Distance p0 p1 - r.Distance p0 p1)) / r.Distance p0 p1)]
              else slice))) := rfl

theorem Ruler.lsaGo_single (r : Ruler ℝ) (start stop : ℝ) (p : Pt ℝ) (sum : ℝ)
    (slice : List (Pt ℝ)) : r.lineSliceAlongGo start stop [p] sum slice = slice := rfl

theorem Ruler.lsaGo_nil (r : Ruler ℝ) (start stop : ℝ) (sum : ℝ)
    (slice : List (Pt ℝ)) : r.lineSliceAlongGo start stop [] sum slice = slice := rfl

/-- When every segment of the remaining line is strictly positive, the running
sum is already past `start = 0`, the accumulator is non-empty, and `stop` is
exactly the final total, the exported loop appends precisely the remaining
vertices (interpolating the last one at t = 1). -/
theorem Ruler.lsaGo_exact (r : Ruler ℝ) (stop : ℝ) :
    ∀ (l : List (Pt ℝ)) (sum : ℝ) (acc : List (Pt ℝ)),
      2 ≤ l.length →
      List.Chain' (fun a b => 0 < r.Distance a b) l →
      stop = sum + r.LineDistance l →
      0 < sum → acc ≠ [] →
      r.lineSliceAlongGo 0 stop l sum acc = acc ++ l.tail := by
  intro l
  induction l with
  | nil => intro sum acc h2 _ _ _ _; simp at h2
  | cons p0 rest ih =>
      intro sum acc h2 hc hstop hsum hacc
      cases rest with
      | nil => simp at h2
      | cons p1 rest2 =>
          have hd : 0 < r.Distance p0 p1 := (List.chain'_cons.mp hc).1
          rw [r.lsaGo_step]
          rw [if_neg (show ¬(sum + r.Distance p0 p1 > 0 ∧ acc = []) from fun h => hacc h.2)]
          cases rest2 with
          | nil =>
              have hstop' : stop = sum + r.Distance p0 p1 := by
                rw [hstop, r.lineDist_cons_cons, r.lineDist_single]; ring
              rw [if_pos (hstop'.le : stop ≤ sum + r.Distance p0 p1)]
              have ht : (stop - (sum + r.Distance p0 p1 - r.Distance p0 p1)) /
                  r.Distance p0 p1 = 1 := by
                rw [hstop']
                field_simp
              rw [ht, interpolate_one]
              simp
          | cons p2 rest3 =>
              have hcr : List.Chain' (fun a b => 0 < r.Distance a b) (p1 :: p2 :: rest3) :=
                (List.chain'_cons.mp hc).2
              have hpos : 0 < r.LineDistance (p1 :: p2 :: rest3) :=
                r.lineDist_pos _ (by simp) hcr
              have hlt : ¬(sum + r.Distance p0 p1 ≥ stop) := by
                rw [hstop, r.lineDist_cons_cons]
                push_neg
                linarith
              rw [if_neg hlt]
              rw [if_pos (show sum + r.Distance p0 p1 > 0 by linarith)]
              rw [ih (sum + r.Distance p0 p1) (acc ++ [p1]) (by simp) hcr
                (by rw [hstop, r.lineDist_cons_cons]; ring) (by linarith) (by simp)]
              simp

/-- C8: slicing a line with at least two points and all-positive projected
segment lengths from 0 to its own lineDistance reproduces the line exactly
(real-number arithmetic). -/
theorem lineSliceAlong_full_reproduces (r : Ruler ℝ) (l : List (Pt ℝ))
    (h2 : 2 ≤ l.length) (hc : List.Chain' (fun a b => 0 < r.Distance a b) l) :
    r.LineSliceAlong 0 (r.LineDistance l) l = l := by
  cases l with
  | nil => simp at h2
  | cons p0 rest =>
      cases rest with
      | nil => simp at h2
      | cons p1 rest2 =>
          have hd : 0 < r.Distance p0 p1 := (List.chain'_cons.mp hc).1
          rw [Ruler.LineSliceAlong, r.lsaGo_step]
          rw [if_pos (show (0:ℝ) + r.Distance p0 p1 > 0 ∧ ([] : List (Pt ℝ)) = [] from
            ⟨by linarith, rfl⟩)]
          have ht0 : ((0:ℝ) - ((0:ℝ) + r.Distance p0 p1 - r.Distance p0 p1)) /
              r.Distance p0 p1 = 0 := by
            field_simp
          rw [ht0, interpolate_zero]
          cases rest2 with
          | nil =>
              have hstop : r.LineDistance [p0, p1] = r.Distance p0 p1 := by
                rw [r.lineDist_cons_cons, r.lineDist_single, add_zero]
              rw [if_pos (show (0:ℝ) + r.Distance p0 p1 ≥ r.LineDistance [p0, p1] by
                rw [hstop]; linarith)]
              have ht1 : (r.LineDistance [p0, p1] -
                  ((0:ℝ) + r.Distance p0 p1 - r.Distance p0 p1)) / r.Distance p0 p1 = 1 := by
                rw [hstop]
                field_simp
              rw [ht1, interpolate_one]
              simp
          | cons p2 rest3 =>
              have hcr : List.Chain' (fun a b => 0 < r.Distance a b) (p1 :: p2 :: rest3) :=
                (List.chain'_cons.mp hc).2
              have hpos : 0 < r.LineDistance (p1 :: p2 :: rest3) :=
                r.lineDist_pos _ (by simp) hcr
              have hlt : ¬((0:ℝ) + r.Distance p0 p1 ≥ r.LineDistance (p0 :: p1 :: p2 :: rest3)) := by
                rw [r.lineDist_cons_cons]
                push_neg
                linarith
              rw [if_neg hlt]
              rw [if_pos (show (0:ℝ) + r.Distance p0 p1 > 0 by linarith)]
              rw [r.lsaGo_exact (r.LineDistance (p0 :: p1 :: p2 :: rest3))
                (p1 :: p2 :: rest3) ((0:ℝ) + r.Distance p0 p1)
                (([] ++ [p0]) ++ [p1]) (by simp) hcr
                (by rw [r.lineDist_cons_cons]; ring) (by linarith) (by simp)]
              simp

/-- Witness for C8 on the single-segment line [(0,0),(3,4)] at kx = ky = 1. -/
theorem lineSliceAlong_full_reproduces_witness :
    2 ≤ ([((0:ℝ), (0:ℝ)), (3, 4)] : List (Pt ℝ)).length ∧
      List.Chain' (fun a b => 0 < Ruler.Distance (⟨1, 1⟩ : Ruler ℝ) a b)
        [((0:ℝ), (0:ℝ)), (3, 4)] ∧
      Ruler.LineSliceAlong (⟨1, 1⟩ : Ruler ℝ) 0
          (Ruler.LineDistance (⟨1, 1⟩ : Ruler ℝ) [(0, 0), (3, 4)]) [(0, 0), (3, 4)] =
        [(0, 0), (3, 4)] := by
  have hc : List.Chain' (fun a b => 0 < Ruler.Distance (⟨1, 1⟩ : Ruler ℝ) a b)
      [((0:ℝ), (0:ℝ)), (3, 4)] := by
    refine List.chain'_cons.mpr ⟨?_, by simp⟩
    rw [dist_three_four]
    norm_num
  exact ⟨by simp, hc,
    lineSliceAlong_full_reproduces (⟨1, 1⟩ : Ruler ℝ) [(0, 0), (3, 4)] (by simp) hc⟩

end LineSliceAlongLemmas

section StopTermination

/-- Once some prefix of the remaining line already reaches `stop`, the scan
never looks past that prefix: the loop's value is unchanged by truncating the
line right after segment `j`. -/
theorem Ruler.lsaGo_trunc (r : Ruler ℝ) (start stop : ℝ) :
    ∀ (l : List (Pt ℝ)) (j : ℕ) (sum : ℝ) (slice : List (Pt ℝ)),
      j + 1 < l.length → stop ≤ sum + r.LineDistance (l.take (j + 2)) →
      r.lineSliceAlongGo start stop l sum slice =
        r.lineSliceAlongGo start stop (l.take (j + 2)) sum slice := by
  intro l
  induction l with
  | nil => intro j sum slice hj _; simp at hj
  | cons p0 rest ih =>
      intro j sum slice hj hstop
      cases rest with
      | nil => simp at hj
      | cons p1 rest2 =>
          have htake : (p0 :: p1 :: rest2).take (j + 2) = p0 :: p1 :: rest2.take j := rfl
          rw [htake] at hstop ⊢
          by_cases hge : sum + r.Distance p0 p1 ≥ stop
          · rw [r.lsaGo_step, if_pos hge, r.lsaGo_step, if_pos hge]
          · cases j with
            | zero =>
                exfalso
                apply hge
                simp only [List.take_zero] at hstop
                rw [r.lineDist_cons_cons, r.lineDist_single] at hstop
                linarith
            | succ j' =>
                rw [r.lsaGo_step, if_neg hge, r.lsaGo_step, if_neg hge]
                have h1 : j' + 1 < (p1 :: rest2).length := by
                  simp at hj ⊢
                  omega
                have h2 : stop ≤ sum + r.Distance p0 p1 +
                    r.LineDistance ((p1 :: rest2).take (j' + 2)) := by
                  have : (p1 :: rest2).take (j' + 2) = p1 :: rest2.take (j' + 1) := rfl
                  rw [this]
                  rw [r.lineDist_cons_cons] at hstop
                  linarith
                have := ih j' (sum + r.Distance p0 p1)
                  (if sum + r.Distance p0 p1 > start then
                    (if sum + r.Distance p0 p1 > start ∧ slice = []
                      then slice ++ [interpolate p0 p1
                        ((start - (sum + r.Distance p0 p1 - r.Distance p0 p1)) /
                          r.Distance p0 p1)]
                      else slice) ++ [p1]
                  else (if sum + r.Distance p0 p1 > start ∧ slice = []
                      then slice ++ [interpolate p0 p1
                        ((start - (sum + r.Distance p0 p1 - r.Distance p0 p1)) /
                          r.Distance p0 p1)]
                      else slice)) h1 h2
                rw [this]
                rfl

/-- The last element of the loop's value, when segment `j` of the remaining
line is the first one whose cumulative distance reaches `stop`, is the stop
point interpolated on that segment. -/
theorem Ruler.lsaGo_last (r : Ruler ℝ) (start stop : ℝ) :
    ∀ (l : List (Pt ℝ)) (j : ℕ) (sum : ℝ) (slice : List (Pt ℝ)),
      j + 1 < l.length →
      stop ≤ sum + r.LineDistance (l.take (j + 2)) →
      (∀ i, i < j → sum + r.LineDistance (l.take (i + 2)) < stop) →
      (r.lineSliceAlongGo start stop l sum slice).getLast? =
        some (interpolate (l.getD j (0, 0)) (l.getD (j + 1) (0, 0))
          ((stop - (sum + r.LineDistance (l.take (j + 1)))) /
            r.Distance (l.getD j (0, 0)) (l.getD (j + 1) (0, 0)))) := by
  intro l
  induction l with
  | nil => intro j sum slice hj _ _; simp at hj
  | cons p0 rest ih =>
      intro j sum slice hj hstop hfirst
      cases rest with
      | nil => simp at hj
      | cons p1 rest2 =>
          by_cases hge : sum + r.Distance p0 p1 ≥ stop
          · cases j with
            | zero =>
                rw [r.lsaGo_step, if_pos hge, List.getLast?_concat]
                have harg : (stop - (sum + r.Distance p0 p1 - r.Distance p0 p1)) /
                      r.Distance p0 p1 =
                    (stop - (sum + r.LineDistance ((p0 :: p1 :: rest2).take 1))) /
                      r.Distance ((p0 :: p1 :: rest2).getD 0 (0, 0))
                        ((p0 :: p1 :: rest2).getD 1 (0, 0)) := by
                  have h1 : (p0 :: p1 :: rest2).take 1 = [p0] := rfl
                  rw [h1, r.lineDist_single]
                  norm_num
                rw [harg]
                rfl
            | succ j' =>
                exfalso
                have := hfirst 0 (Nat.succ_pos j')
                have h2 : (p0 :: p1 :: rest2).take 2 = [p0, p1] := rfl
                rw [h2, r.lineDist_cons_cons, r.lineDist_single] at this
                linarith
          · cases j with
            | zero =>
                exfalso
                apply hge
                have h2 : (p0 :: p1 :: rest2).take 2 = [p0, p1] := rfl
                rw [h2, r.lineDist_cons_cons, r.lineDist_single] at hstop
                linarith
            | succ j' =>
                rw [r.lsaGo_step, if_neg hge]
                have h1 : j' + 1 < (p1 :: rest2).length := by
                  simp at hj ⊢
                  omega
                have h2 : stop ≤ sum + r.Distance p0 p1 +
                    r.LineDistance ((p1 :: rest2).take (j' + 2)) := by
                  have ht : (p0 :: p1 :: rest2).take (j' + 1 + 2) =
                      p0 :: (p1 :: rest2).take (j' + 2) := rfl
                  rw [ht] at hstop
                  have hc : (p1 :: rest2).take (j' + 2) = p1 :: rest2.take (j' + 1) := rfl
                  rw [hc] at hstop ⊢
                  rw [r.lineDist_cons_cons] at hstop
                  linarith
                have h3 : ∀ i, i < j' → sum + r.Distance p0 p1 +
                    r.LineDistance ((p1 :: rest2).take (i + 2)) < stop := by
                  intro i hi
                  have := hfirst (i + 1) (by omega)
                  have ht : (p0 :: p1 :: rest2).take (i + 1 + 2) =
                      p0 :: (p1 :: rest2).take (i + 2) := rfl
                  rw [ht] at this
                  have hc : (p1 :: rest2).take (i + 2) = p1 :: rest2.take (i + 1) := rfl
                  rw [hc] at this ⊢
                  rw [r.lineDist_cons_cons] at this
                  linarith
                rw [ih j' (sum + r.Distance p0 p1) _ h1 h2 h3]
                have harg : sum + r.Distance p0 p1 +
                    r.LineDistance ((p1 :: rest2).take (j' + 1)) =
                    sum + r.LineDistance ((p0 :: p1 :: rest2).take (j' + 1 + 1)) := by
                  cases j' with
                  | zero =>
                      have ha : (p1 :: rest2).take 1 = [p1] := rfl
                      have hb : (p0 :: p1 :: rest2).take 2 = [p0, p1] := rfl
                      rw [ha, hb, r.lineDist_single, r.lineDist_cons_cons, r.lineDist_single]
                      ring
                  | succ j'' =>
                      have ha : (p1 :: rest2).take (j'' + 1 + 1) =
                        p1 :: rest2.take (j'' + 1) := rfl
                      have hb : (p0 :: p1 :: rest2).take (j'' + 1 + 1 + 1) =
                        p0 :: p1 :: rest2.take (j'' + 1) := rfl
                      rw [ha, hb, r.lineDist_cons_cons]
                      ring
                rw [harg]
                rfl

/-- If the running sum can never reach either stop bound, the loop's value does
not depend on the stop bound at all. -/
theorem Ruler.lsaGo_stop_indep (r : Ruler ℝ) (start stop stop' : ℝ) :
    ∀ (l : List (Pt ℝ)) (sum : ℝ) (slice : List (Pt ℝ)),
      sum + r.LineDistance l < stop → sum + r.LineDistance l < stop' →
      r.lineSliceAlongGo start stop l sum slice =
        r.lineSliceAlongGo start stop' l sum slice := by
  intro l
  induction l with
  | nil => intro sum slice _ _; rw [r.lsaGo_nil, r.lsaGo_nil]
  | cons p0 rest ih =>
      intro sum slice h h'
      cases rest with
      | nil => rw [r.lsaGo_single, r.lsaGo_single]
      | cons p1 rest2 =>
          have hd : 0 ≤ r.LineDistance (p1 :: rest2) := r.LineDistance_nonneg _
          rw [r.lineDist_cons_cons] at h h'
          have hn : ¬(sum + r.Distance p0 p1 ≥ stop) := by push_neg; linarith
          have hn' : ¬(sum + r.Distance p0 p1 ≥ stop') := by push_neg; linarith
          rw [r.lsaGo_step, if_neg hn, r.lsaGo_step, if_neg hn']
          exact ih (sum + r.Distance p0 p1) _ (by linarith) (by linarith)

/-- C4: LineSliceAlong terminates on the first segment at which the running
sum reaches or exceeds `stop`: its value is unchanged by truncating the line
right after any segment whose cumulative distance reaches `stop` (nothing from
later segments is appended); its last element is the point interpolated at
`stop` on the first such segment; and when the running sum never reaches
`stop` (the total is below it) the result does not depend on `stop` at all —
it is whatever was accumulated when the scan reached the end of the line. -/
theorem lineSliceAlong_stop_termination (r : Ruler ℝ) (start stop : ℝ)
    (l : List (Pt ℝ)) :
    (∀ j, j + 1 < l.length → stop ≤ r.LineDistance (l.take (j + 2)) →
      r.LineSliceAlong start stop l = r.LineSliceAlong start stop (l.take (j + 2))) ∧
      (∀ j, j + 1 < l.length → stop ≤ r.LineDistance (l.take (j + 2)) →
        (∀ i, i < j → r.LineDistance (l.take (i + 2)) < stop) →
        (r.LineSliceAlong start stop l).getLast? =
          some (interpolate (l.getD j (0, 0)) (l.getD (j + 1) (0, 0))
            ((stop - r.LineDistance (l.take (j + 1))) /
              r.Distance (l.getD j (0, 0)) (l.getD (j + 1) (0, 0))))) ∧
      (r.LineDistance l < stop → ∀ stop', r.LineDistance l < stop' →
        r.LineSliceAlong start stop l = r.LineSliceAlong start stop' l) := by
  refine ⟨fun j hj hstop => ?_, fun j hj hstop hfirst => ?_, fun h stop' h' => ?_⟩
  · exact r.lsaGo_trunc start stop l j 0 [] hj (by rw [zero_add]; exact hstop)
  · have := r.lsaGo_last start stop l j 0 [] hj (by rw [zero_add]; exact hstop)
      (fun i hi => by rw [zero_add]; exact hfirst i hi)
    rw [zero_add] at this
    exact this
  · exact r.lsaGo_stop_indep start stop stop' l 0 []
      (by rw [zero_add]; exact h) (by rw [zero_add]; exact h')

/-- Witness for C4 at kx = ky = 1 on [(0,0),(3,4)] (total length 5): the first
two parts at stop = 5 with j = 0, the never-reached part at stop = 7,
stop' = 6. -/
theorem lineSliceAlong_stop_termination_witness :
    ((0 : ℕ) + 1 < ([((0:ℝ), (0:ℝ)), (3, 4)] : List (Pt ℝ)).length ∧
      (5 : ℝ) ≤ Ruler.LineDistance (⟨1, 1⟩ : Ruler ℝ)
        (([((0:ℝ), (0:ℝ)), (3, 4)] : List (Pt ℝ)).take 2) ∧
      Ruler.LineSliceAlong (⟨1, 1⟩ : Ruler ℝ) 0 5 [(0, 0), (3, 4)] =
        Ruler.LineSliceAlong (⟨1, 1⟩ : Ruler ℝ) 0 5
          (([((0:ℝ), (0:ℝ)), (3, 4)] : List (Pt ℝ)).take 2)) ∧
    (Ruler.LineSliceAlong (⟨1, 1⟩ : Ruler ℝ) 0 5 [(0, 0), (3, 4)]).getLast? =
      some (interpolate (([((0:ℝ), (0:ℝ)), (3, 4)] : List (Pt ℝ)).getD 0 (0, 0))
        (([((0:ℝ), (0:ℝ)), (3, 4)] : List (Pt ℝ)).getD 1 (0, 0))
        (((5 : ℝ) - Ruler.LineDistance (⟨1, 1⟩ : Ruler ℝ)
            (([((0:ℝ), (0:ℝ)), (3, 4)] : List (Pt ℝ)).take 1)) /
          Ruler.Distance (⟨1, 1⟩ : Ruler ℝ)
            (([((0:ℝ), (0:ℝ)), (3, 4)] : List (Pt ℝ)).getD 0 (0, 0))
            (([((0:ℝ), (0:ℝ)), (3, 4)] : List (Pt ℝ)).getD 1 (0, 0)))) ∧
    (Ruler.LineDistance (⟨1, 1⟩ : Ruler ℝ) [(0, 0), (3, 4)] < 7 ∧
      Ruler.LineDistance (⟨1, 1⟩ : Ruler ℝ) [(0, 0), (3, 4)] < 6 ∧
      Ruler.LineSliceAlong (⟨1, 1⟩ : Ruler ℝ) 0 7 [(0, 0), (3, 4)] =
        Ruler.LineSliceAlong (⟨1, 1⟩ : Ruler ℝ) 0 6 [(0, 0), (3, 4)]) := by
  have htake : (([((0:ℝ), (0:ℝ)), (3, 4)] : List (Pt ℝ)).take 2) =
      [((0:ℝ), (0:ℝ)), (3, 4)] := rfl
  have hld5 : (5 : ℝ) ≤ Ruler.LineDistance (⟨1, 1⟩ : Ruler ℝ)
      (([((0:ℝ), (0:ℝ)), (3, 4)] : List (Pt ℝ)).take 2) := by
    rw [htake, lineDist_three_four]
  have h7 : Ruler.LineDistance (⟨1, 1⟩ : Ruler ℝ) [(0, 0), (3, 4)] < 7 := by
    rw [lineDist_three_four]; norm_num
  have h6 : Ruler.LineDistance (⟨1, 1⟩ : Ruler ℝ) [(0, 0), (3, 4)] < 6 := by
    rw [lineDist_three_four]; norm_num
  refine ⟨⟨by simp, hld5, ?_⟩, ?_, h7, h6, ?_⟩
  · exact (lineSliceAlong_stop_termination (⟨1, 1⟩ : Ruler ℝ) 0 5 [(0, 0), (3, 4)]).1
      0 (by simp) hld5
  · exact (lineSliceAlong_stop_termination (⟨1, 1⟩ : Ruler ℝ) 0 5 [(0, 0), (3, 4)]).2.1
      0 (by simp) hld5 (fun i hi => absurd hi (Nat.not_lt_zero i))
  · exact (lineSliceAlong_stop_termination (⟨1, 1⟩ : Ruler ℝ) 0 7 [(0, 0), (3, 4)]).2.2
      h7 6 h6

end StopTermination

section DraftRefinement

/-- One unfolded step of the draft lineSliceAlong loop on a two-point head,
with the let bindings of the body expanded. -/
theorem Ruler.lsaDraftGo_step (r : Ruler ℝ) (start stop : ℝ) (p0 p1 : Pt ℝ)
    (rest : List (Pt ℝ)) (sum : ℝ) (slice : List (Pt ℝ)) :
    r.lineSliceAlongDraftGo start stop (p0 :: p1 :: rest) sum slice =
      r.lineSliceAlongDraftGo start stop (p1 :: rest) (sum + r.Distance p0 p1)
        (if sum + r.Distance p0 p1 > start then
          (if sum + r.Distance p0 p1 ≥ stop then
            (if sum + r.Distance p0 p1 > start ∧ slice = []
              then slice ++ [interpolate p0 p1
                ((start - (sum + r.Distance p0 p1 - r.Distance p0 p1)) / r.Distance p0 p1)]
              else slice) ++ [interpolate p0 p1
                ((stop - (sum + r.Distance p0 p1 - r.Distance p0 p1)) / r.Distance p0 p1)]
          else (if sum + r.Distance p0 p1 > start ∧ slice = []
              then slice ++ [interpolate p0 p1
                ((start - (sum + r.Distance p0 p1 - r.Distance p0 p1)) / r.Distance p0 p1)]
              else slice)) ++ [p1]
        else
          (if sum + r.Distance p0 p1 ≥ stop then
            (if sum + r.Distance p0 p1 > start ∧ slice = []
              then slice ++ [interpolate p0 p1
                ((start - (sum + r.Distance p0 p1 - r.Distance p0 p1)) / r.Distance p0 p1)]
              else slice) ++ [interpolate p0 p1
                ((stop - (sum + r.Distance p0 p1 - r.Distance p0 p1)) / r.Distance p0 p1)]
          else (if sum + r.Distance p0 p1 > start ∧ slice = []
              then slice ++ [interpolate p0 p1
                ((start - (sum + r.Distance p0 p1 - r.Distance p0 p1)) / r.Distance p0 p1)]
              else slice))) := rfl

theorem Ruler.lsaDraftGo_single (r : Ruler ℝ) (start stop : ℝ) (p : Pt ℝ) (sum : ℝ)
    (slice : List (Pt ℝ)) :
    r.lineSliceAlongDraftGo start stop [p] sum slice = slice := rfl

theorem Ruler.lsaDraftGo_nil (r : Ruler ℝ) (start stop : ℝ) (sum : ℝ)
    (slice : List (Pt ℝ)) :
    r.lineSliceAlongDraftGo start stop [] sum slice = slice := rfl

theorem append_extends_zero {α : Type} (s : List α) : ∃ u, s = s ++ u :=
  ⟨[], (List.append_nil s).symm⟩

theorem append_extends_one {α : Type} (s a : List α) : ∃ u, s ++ a = s ++ u := ⟨a, rfl⟩

theorem append_extends_two {α : Type} (s a b : List α) : ∃ u, s ++ a ++ b = s ++ u :=
  ⟨a ++ b, List.append_assoc s a b⟩

theorem append_extends_three {α : Type} (s a b c : List α) :
    ∃ u, s ++ a ++ b ++ c = s ++ u :=
  ⟨a ++ (b ++ c), by simp [List.append_assoc]⟩

/-- The draft loop only ever appends to its accumulator. -/
theorem Ruler.lsaDraftGo_acc (r : Ruler ℝ) (start stop : ℝ) :
    ∀ (l : List (Pt ℝ)) (sum : ℝ) (slice : List (Pt ℝ)),
      ∃ t, r.lineSliceAlongDraftGo start stop l sum slice = slice ++ t := by
  intro l
  induction l with
  | nil => intro sum slice; exact ⟨[], by rw [r.lsaDraftGo_nil, List.append_nil]⟩
  | cons p0 rest ih =>
      intro sum slice
      cases rest with
      | nil => exact ⟨[], by rw [r.lsaDraftGo_single, List.append_nil]⟩
      | cons p1 rest2 =>
          rw [r.lsaDraftGo_step]
          suffices h : ∀ A : List (Pt ℝ), (∃ u, A = slice ++ u) →
              ∃ t, r.lineSliceAlongDraftGo start stop (p1 :: rest2)
                (sum + r.Distance p0 p1) A = slice ++ t by
            apply h
            split_ifs <;>
              first
                | exact append_extends_zero _
                | exact append_extends_one _ _
                | exact append_extends_two _ _ _
                | exact append_extends_three _ _ _ _
          rintro A ⟨u, rfl⟩
          obtain ⟨t, ht⟩ := ih (sum + r.Distance p0 p1) (slice ++ u)
          exact ⟨u ++ t, by rw [ht, List.append_assoc]⟩

/-- The value of the exported loop is always a prefix of the value of the
draft loop started from the same state. -/
theorem Ruler.lsaGo_isPrefix_draft (r : Ruler ℝ) (start stop : ℝ) :
    ∀ (l : List (Pt ℝ)) (sum : ℝ) (slice : List (Pt ℝ)),
      ∃ t, r.lineSliceAlongDraftGo start stop l sum slice =
        r.lineSliceAlongGo start stop l sum slice ++ t := by
  intro l
  induction l with
  | nil =>
      intro sum slice
      exact ⟨[], by rw [r.lsaDraftGo_nil, r.lsaGo_nil, List.append_nil]⟩
  | cons p0 rest ih =>
      intro sum slice
      cases rest with
      | nil => exact ⟨[], by rw [r.lsaDraftGo_single, r.lsaGo_single, List.append_nil]⟩
      | cons p1 rest2 =>
          by_cases hge : sum + r.Distance p0 p1 ≥ stop
          · rw [r.lsaGo_step, if_pos hge, r.lsaDraftGo_step, if_pos hge]
            suffices h : ∀ (A t0 : List (Pt ℝ)), (∃ u, A = t0 ++ u) →
                ∃ t, r.lineSliceAlongDraftGo start stop (p1 :: rest2)
                  (sum + r.Distance p0 p1) A = t0 ++ t by
              apply h
              split_ifs <;>
                first
                  | exact append_extends_zero _
                  | exact append_extends_one _ _
            rintro A t0 ⟨u, rfl⟩
            obtain ⟨t, ht⟩ := r.lsaDraftGo_acc start stop (p1 :: rest2)
              (sum + r.Distance p0 p1) (t0 ++ u)
            exact ⟨u ++ t, by rw [ht, List.append_assoc]⟩
          · rw [r.lsaGo_step, if_neg hge, r.lsaDraftGo_step, if_neg hge]
            exact ih (sum + r.Distance p0 p1) _

/-- When the running sum cannot reach `stop`, the draft loop and the exported
loop agree. -/
theorem Ruler.lsaGo_eq_draft_of_short (r : Ruler ℝ) (start stop : ℝ) :
    ∀ (l : List (Pt ℝ)) (sum : ℝ) (slice : List (Pt ℝ)),
      sum + r.LineDistance l < stop →
      r.lineSliceAlongDraftGo start stop l sum slice =
        r.lineSliceAlongGo start stop l sum slice := by
  intro l
  induction l with
  | nil => intro sum slice _; rw [r.lsaDraftGo_nil, r.lsaGo_nil]
  | cons p0 rest ih =>
      intro sum slice h
      cases rest with
      | nil => rw [r.lsaDraftGo_single, r.lsaGo_single]
      | cons p1 rest2 =>
          have hd : 0 ≤ r.LineDistance (p1 :: rest2) := r.LineDistance_nonneg _
          rw [r.lineDist_cons_cons] at h
          have hn : ¬(sum + r.Distance p0 p1 ≥ stop) := by push_neg; linarith
          rw [r.lsaGo_step, if_neg hn, r.lsaDraftGo_step, if_neg hn]
          exact ih (sum + r.Distance p0 p1) _ (by linarith)

/-- C5: the exported LineSliceAlong is a prefix of the draft lineSliceAlong
(the draft only adds trailing points), and the two agree whenever the running
sum never reaches `stop` (total length below `stop`). -/
theorem lineSliceAlong_draft_refines (r : Ruler ℝ) (start stop : ℝ) (l : List (Pt ℝ)) :
    (∃ t, r.lineSliceAlong start stop l = r.LineSliceAlong start stop l ++ t) ∧
      (r.LineDistance l < stop →
        r.lineSliceAlong start stop l = r.LineSliceAlong start stop l) := by
  constructor
  · exact r.lsaGo_isPrefix_draft start stop l 0 []
  · intro h
    exact r.lsaGo_eq_draft_of_short start stop l 0 [] (by rw [zero_add]; exact h)

/-- Witness for C5 at kx = ky = 1 on [(0,0),(3,4)] with stop = 6 above the
total length 5. -/
theorem lineSliceAlong_draft_refines_witness :
    Ruler.LineDistance (⟨1, 1⟩ : Ruler ℝ) [(0, 0), (3, 4)] < 6 ∧
      Ruler.lineSliceAlong (⟨1, 1⟩ : Ruler ℝ) 0 6 [(0, 0), (3, 4)] =
        Ruler.LineSliceAlong (⟨1, 1⟩ : Ruler ℝ) 0 6 [(0, 0), (3, 4)] := by
  have h6 : Ruler.LineDistance (⟨1, 1⟩ : Ruler ℝ) [(0, 0), (3, 4)] < 6 := by
    rw [lineDist_three_four]; norm_num
  exact ⟨h6, (lineSliceAlong_draft_refines (⟨1, 1⟩ : Ruler ℝ) 0 6 [(0, 0), (3, 4)]).2 h6⟩

end DraftRefinement

section PointOnLineDefs

variable {K : Type} [LinearOrderedField K]

/-- Invariant of the PointOnLine scan state after processing the segments with
candidate squared distances `xs` and candidate points `cs`: either nothing has
been processed (`minDist` still infinite), or the state records the first
index attaining the minimum of `xs`. -/
def polInv (s : POLAcc K) (xs : List K) (cs : List (Pt K)) : Prop :=
  (s.minDist = none ∧ xs = []) ∨
    (∃ j, j < xs.length ∧ s.minI = j ∧ s.minDist = some (xs.getD j 0) ∧
      (s.minX, s.minY) = cs.getD j (0, 0) ∧
      (∀ k, k < xs.length → xs.getD j 0 ≤ xs.getD k 0) ∧
      (∀ k, k < j → xs.getD j 0 < xs.getD k 0))

end PointOnLineDefs

section PointOnLineTheorems

theorem getD_append_length {α : Type} (xs : List α) (a d : α) :
    (xs ++ [a]).getD xs.length d = a := by
  rw [List.getD_append_right _ _ _ _ le_rfl, Nat.sub_self]
  rfl

theorem sqList_cons_cons {K : Type} [LinearOrderedField K] (r : Ruler K) (p a b : Pt K)
    (rest : List (Pt K)) :
    sqList r p (a :: b :: rest) = segSqDist r p a b :: sqList r p (b :: rest) := rfl

theorem sqList_single {K : Type} [LinearOrderedField K] (r : Ruler K) (p a : Pt K) :
    sqList r p [a] = [] := rfl

theorem sqList_nil {K : Type} [LinearOrderedField K] (r : Ruler K) (p : Pt K) :
    sqList r p [] = [] := rfl

theorem candList_single {K : Type} [LinearOrderedField K] (r : Ruler K) (p a : Pt K) :
    candList r p [a] = [] := rfl

theorem candList_nil {K : Type} [LinearOrderedField K] (r : Ruler K) (p : Pt K) :
    candList r p [] = [] := rfl

theorem candList_cons_cons {K : Type} [LinearOrderedField K] (r : Ruler K) (p a b : Pt K)
    (rest : List (Pt K)) :
    candList r p (a :: b :: rest) = segCand r p a b :: candList r p (b :: rest) := rfl

theorem Ruler.polGo_cons_cons {K : Type} [LinearOrderedField K] (r : Ruler K)
    (p a b : Pt K) (rest : List (Pt K)) (i : ℕ) (s : POLAcc K) :
    r.polGo p (a :: b :: rest) i s =
      r.polGo p (b :: rest) (i + 1)
        (if ltOpt (segSqDist r p a b) s.minDist then
          ⟨some (segSqDist r p a b), (segCand r p a b).1, (segCand r p a b).2, i,
            segT r p a b s.t, segT r p a b s.t⟩
        else ⟨s.minDist, s.minX, s.minY, s.minI, s.minT, segT r p a b s.t⟩) := rfl

theorem Ruler.polGo_single {K : Type} [LinearOrderedField K] (r : Ruler K) (p a : Pt K)
    (i : ℕ) (s : POLAcc K) : r.polGo p [a] i s = s := rfl

theorem Ruler.polGo_nil {K : Type} [LinearOrderedField K] (r : Ruler K) (p : Pt K)
    (i : ℕ) (s : POLAcc K) : r.polGo p [] i s = s := rfl

theorem ltOpt_true {K : Type} [LinearOrderedField K] {x : K} {o : Option K}
    (h : ltOpt x o = true) : ∀ m, o = some m → x < m := by
  intro m hm
  rw [hm] at h
  exact of_decide_eq_true h

theorem ltOpt_false {K : Type} [LinearOrderedField K] {x : K} {o : Option K}
    (h : ¬ltOpt x o = true) : ∃ m, o = some m ∧ m ≤ x := by
  cases o with
  | none => exact absurd rfl h
  | some m =>
      refine ⟨m, rfl, ?_⟩
      by_contra hlt
      exact h (by simpa [ltOpt] using lt_of_not_le hlt)

/-- The scan invariant is preserved by running the loop over any remaining
point list. -/
theorem Ruler.polGo_inv {K : Type} [LinearOrderedField K] (r : Ruler K) (p : Pt K) :
    ∀ (rest : List (Pt K)) (xs : List K) (cs : List (Pt K)) (s : POLAcc K),
      cs.length = xs.length → polInv s xs cs →
      polInv (r.polGo p rest xs.length s)
        (xs ++ sqList r p rest) (cs ++ candList r p rest) := by
  intro rest
  induction rest with
  | nil =>
      intro xs cs s _ hinv
      rw [r.polGo_nil]
      simpa [sqList_nil, candList_nil] using hinv
  | cons a rest' ih =>
      intro xs cs s hlen hinv
      cases rest' with
      | nil =>
          rw [r.polGo_single]
          simpa [sqList_single, candList_single] using hinv
      | cons b rest2 =>
          rw [r.polGo_cons_cons, sqList_cons_cons, candList_cons_cons,
            List.append_cons xs (segSqDist r p a b) (sqList r p (b :: rest2)),
            List.append_cons cs (segCand r p a b) (candList r p (b :: rest2))]
          have hlen1 : (xs ++ [segSqDist r p a b]).length = xs.length + 1 := by simp
          have hlen2 : (cs ++ [segCand r p a b]).length =
              (xs ++ [segSqDist r p a b]).length := by simp [hlen]
          by_cases hlt : ltOpt (segSqDist r p a b) s.minDist = true
          · rw [if_pos hlt]
            have hinv' : polInv
                (⟨some (segSqDist r p a b), (segCand r p a b).1, (segCand r p a b).2,
                  xs.length, segT r p a b s.t, segT r p a b s.t⟩ : POLAcc K)
                (xs ++ [segSqDist r p a b]) (cs ++ [segCand r p a b]) := by
              right
              refine ⟨xs.length, by simp, rfl, ?_, ?_, ?_, ?_⟩
              · rw [getD_append_length]
              · rw [← hlen, getD_append_length]
              · intro k hk
                rw [getD_append_length]
                rcases Nat.lt_succ_iff_lt_or_eq.mp (by simpa using hk) with hk' | hk'
                · rw [List.getD_append _ _ _ _ hk']
                  rcases hinv with ⟨_, hxs⟩ | ⟨j0, hj0, _, hD, _, hmin, _⟩
                  · simp [hxs] at hk'
                  · have hx := ltOpt_true hlt _ hD
                    exact le_of_lt (lt_of_lt_of_le hx (hmin k hk'))
                · rw [hk', getD_append_length]
              · intro k hk
                rw [getD_append_length, List.getD_append _ _ _ _ hk]
                rcases hinv with ⟨_, hxs⟩ | ⟨j0, hj0, _, hD, _, hmin, _⟩
                · simp [hxs] at hk
                · have hx := ltOpt_true hlt _ hD
                  exact lt_of_lt_of_le hx (hmin k hk)
            have := ih (xs ++ [segSqDist r p a b]) (cs ++ [segCand r p a b]) _ hlen2 hinv'
            rw [hlen1] at this
            exact this
          · rw [if_neg hlt]
            obtain ⟨m, hm, hmx⟩ := ltOpt_false hlt
            rcases hinv with ⟨hD, _⟩ | ⟨j0, hj0, hI, hD, hpt, hmin, hstrict⟩
            · rw [hD] at hm
              exact absurd hm (by simp)
            · have hinv' : polInv
                  (⟨s.minDist, s.minX, s.minY, s.minI, s.minT, segT r p a b s.t⟩ : POLAcc K)
                  (xs ++ [segSqDist r p a b]) (cs ++ [segCand r p a b]) := by
                right
                refine ⟨j0, by simp; omega, hI, ?_, ?_, ?_, ?_⟩
                · rw [List.getD_append _ _ _ _ hj0]
                  exact hD
                · rw [List.getD_append _ _ _ _ (hlen ▸ hj0)]
                  exact hpt
                · intro k hk
                  rw [List.getD_append _ _ _ _ hj0]
                  rcases Nat.lt_succ_iff_lt_or_eq.mp (by simpa using hk) with hk' | hk'
                  · rw [List.getD_append _ _ _ _ hk']
                    exact hmin k hk'
                  · rw [hk', getD_append_length]
                    have : some (xs.getD j0 0) = some m := hD ▸ hm
                    rw [Option.some_inj.mp this]
                    exact hmx
                · intro k hk
                  rw [List.getD_append _ _ _ _ hj0,
                    List.getD_append _ _ _ _ (Nat.lt_trans hk hj0)]
                  exact hstrict k hk
              have := ih (xs ++ [segSqDist r p a b]) (cs ++ [segCand r p a b]) _ hlen2 hinv'
              rw [hlen1] at this
              exact this

/-- C9: PointOnLine returns the point and segment index of the first,
lowest-index segment whose candidate squared projected distance attains the
minimum over all segments (ties resolved in favor of the earlier segment), and
the returned t is clamped into [0, 1]. -/
theorem pointOnLine_first_min {K : Type} [LinearOrderedField K] (r : Ruler K)
    (l : List (Pt K)) (p : Pt K) (h2 : 2 ≤ l.length) :
    (r.PointOnLine l p).index < (sqList r p l).length ∧
      (r.PointOnLine l p).point = (candList r p l).getD (r.PointOnLine l p).index (0, 0) ∧
      (∀ k, k < (sqList r p l).length →
        (sqList r p l).getD (r.PointOnLine l p).index 0 ≤ (sqList r p l).getD k 0) ∧
      (∀ k, k < (r.PointOnLine l p).index →
        (sqList r p l).getD (r.PointOnLine l p).index 0 < (sqList r p l).getD k 0) ∧
      0 ≤ (r.PointOnLine l p).t ∧ (r.PointOnLine l p).t ≤ 1 := by
  have h0 := r.polGo_inv p l [] [] ⟨none, 0, 0, 0, 0, 0⟩ rfl (Or.inl ⟨rfl, rfl⟩)
  simp only [List.nil_append, List.length_nil] at h0
  rcases h0 with ⟨_, hxs⟩ | ⟨j, hj, hI, _, hpt, hmin, hstrict⟩
  · exfalso
    match l, h2 with
    | a :: b :: rest, _ => rw [sqList_cons_cons] at hxs; exact List.cons_ne_nil _ _ hxs
  · refine ⟨?_, ?_, ?_, ?_, le_max_left 0 _, max_le zero_le_one (min_le_left 1 _)⟩
    · show (r.polGo p l 0 ⟨none, 0, 0, 0, 0, 0⟩).minI < (sqList r p l).length
      rw [hI]; exact hj
    · show ((r.polGo p l 0 ⟨none, 0, 0, 0, 0, 0⟩).minX,
          (r.polGo p l 0 ⟨none, 0, 0, 0, 0, 0⟩).minY) =
        (candList r p l).getD (r.polGo p l 0 ⟨none, 0, 0, 0, 0, 0⟩).minI (0, 0)
      rw [hI]; exact hpt
    · intro k hk
      show (sqList r p l).getD (r.polGo p l 0 ⟨none, 0, 0, 0, 0, 0⟩).minI 0 ≤ _
      rw [hI]; exact hmin k hk
    · intro k hk
      show (sqList r p l).getD (r.polGo p l 0 ⟨none, 0, 0, 0, 0, 0⟩).minI 0 <
        (sqList r p l).getD k 0
      rw [hI]
      exact hstrict k (by
        have : (r.PointOnLine l p).index = (r.polGo p l 0 ⟨none, 0, 0, 0, 0, 0⟩).minI := rfl
        rw [this, hI] at hk
        exact hk)

/-- Witness for C9 at kx = ky = 1 on the two-segment line
[(0,0),(10,0),(10,10)] with query point (2,5). -/
theorem pointOnLine_first_min_witness :
    2 ≤ ([((0:ℚ), (0:ℚ)), (10, 0), (10, 10)] : List (Pt ℚ)).length ∧
      ((Ruler.PointOnLine (⟨1, 1⟩ : Ruler ℚ) [(0, 0), (10, 0), (10, 10)] (2, 5)).index <
          (sqList (⟨1, 1⟩ : Ruler ℚ) (2, 5) [(0, 0), (10, 0), (10, 10)]).length ∧
        (Ruler.PointOnLine (⟨1, 1⟩ : Ruler ℚ) [(0, 0), (10, 0), (10, 10)] (2, 5)).point =
          (candList (⟨1, 1⟩ : Ruler ℚ) (2, 5) [(0, 0), (10, 0), (10, 10)]).getD
            (Ruler.PointOnLine (⟨1, 1⟩ : Ruler ℚ) [(0, 0), (10, 0), (10, 10)] (2, 5)).index
            (0, 0) ∧
        (∀ k, k < (sqList (⟨1, 1⟩ : Ruler ℚ) (2, 5) [(0, 0), (10, 0), (10, 10)]).length →
          (sqList (⟨1, 1⟩ : Ruler ℚ) (2, 5) [(0, 0), (10, 0), (10, 10)]).getD
              (Ruler.PointOnLine (⟨1, 1⟩ : Ruler ℚ)
                [(0, 0), (10, 0), (10, 10)] (2, 5)).index 0 ≤
            (sqList (⟨1, 1⟩ : Ruler ℚ) (2, 5) [(0, 0), (10, 0), (10, 10)]).getD k 0) ∧
        (∀ k, k < (Ruler.PointOnLine (⟨1, 1⟩ : Ruler ℚ)
            [(0, 0), (10, 0), (10, 10)] (2, 5)).index →
          (sqList (⟨1, 1⟩ : Ruler ℚ) (2, 5) [(0, 0), (10, 0), (10, 10)]).getD
              (Ruler.PointOnLine (⟨1, 1⟩ : Ruler ℚ)
                [(0, 0), (10, 0), (10, 10)] (2, 5)).index 0 <
            (sqList (⟨1, 1⟩ : Ruler ℚ) (2, 5) [(0, 0), (10, 0), (10, 10)]).getD k 0) ∧
        0 ≤ (Ruler.PointOnLine (⟨1, 1⟩ : Ruler ℚ) [(0, 0), (10, 0), (10, 10)] (2, 5)).t ∧
        (Ruler.PointOnLine (⟨1, 1⟩ : Ruler ℚ) [(0, 0), (10, 0), (10, 10)] (2, 5)).t ≤ 1) :=
  ⟨by simp,
    pointOnLine_first_min (⟨1, 1⟩ : Ruler ℚ) [(0, 0), (10, 0), (10, 10)] (2, 5) (by simp)⟩

end PointOnLineTheorems
